import Mathlib

/-!
Verification of the e-commerce agent runtime (Groq_agent repository).

The development shallowly embeds the repository's Python code:

* `SafeOutputParser.parse` (src/agent.py) over `List Char` texts;
* the conversation-memory window, the executor iteration ceiling and the
  error-classification branch of `EcommerceAgent.process_message`;
* `EcommerceAgent.switch_model`;
* `MockOrderDatabase.cancel_order` and the tool layer of src/tools.py.

Components whose implementation lives in the langchain library rather than
in the repository (the ReAct executor loop, `ConversationBufferWindowMemory`)
are modelled from the specification; their doc comments say so explicitly.
-/

namespace GroqAgent

/-! ## Python string primitives on `List Char` -/

/-- Python whitespace predicate used by `str.strip()` (ASCII part). -/
def isPySpace (c : Char) : Bool :=
  c == ' ' || c == '\t' || c == '\n' || c == '\r' || c == '\x0b' || c == '\x0c'

/-- Embedding of Python `str.strip()`: drop whitespace from both ends. -/
def pyStrip (s : List Char) : List Char :=
  ((s.dropWhile isPySpace).reverse.dropWhile isPySpace).reverse

/-- `occursAt sep s i` holds when `sep` occurs in `s` at index `i`. -/
def occursAt (sep s : List Char) (i : Nat) : Bool :=
  sep.isPrefixOf (s.drop i)

/-- Index of the leftmost occurrence of `sep` in `s` (Python `str.find`,
the scan Python `str.split` performs repeatedly). -/
def findSub (sep s : List Char) : Option Nat :=
  (List.range (s.length + 1)).find? (occursAt sep s)

/-- Embedding of the Python substring test `sep in s`. -/
def pyContains (sep s : List Char) : Bool :=
  (findSub sep s).isSome

/-- The final-answer marker `"Final Answer:"` of `SafeOutputParser.parse`. -/
def finalMarker : List Char := "Final Answer:".data

theorem findSub_some_occurs {sep s : List Char} {i : Nat}
    (h : findSub sep s = some i) : occursAt sep s i = true :=
  List.find?_some h

theorem occursAt_prefix_drop {sep s : List Char} {i : Nat}
    (h : occursAt sep s i = true) : sep <+: s.drop i := by
  simpa [occursAt, List.isPrefixOf_iff_prefix] using h

theorem occursAt_add_le {sep s : List Char} {i : Nat} (hsep : 0 < sep.length)
    (h : occursAt sep s i = true) : i + sep.length ≤ s.length := by
  have hp := (occursAt_prefix_drop h).length_le
  rw [List.length_drop] at hp
  omega

/-- Fuel-based recursion for `pySplit`; each recursive step removes at least
`finalMarker.length` characters, so fuel `s.length + 1` is always enough. -/
def pySplitAux : Nat → List Char → List (List Char)
  | 0, s => [s]
  | fuel + 1, s =>
    match findSub finalMarker s with
    | none => [s]
    | some i => s.take i :: pySplitAux fuel (s.drop (i + finalMarker.length))

/-- Embedding of `text.split("Final Answer:")`: Python `str.split` with the
final-answer marker as separator. -/
def pySplit (s : List Char) : List (List Char) :=
  pySplitAux (s.length + 1) s

/-! ## The regex `Action: (.*)\nAction Input: (.*)` -/

/-- Literal `"Action: "` from the action regex. -/
def actionTag : List Char := "Action: ".data

/-- Literal `"\nAction Input: "` from the action regex. -/
def inputTag : List Char := "\nAction Input: ".data

/-- Attempt to match the regex `Action: (.*)\nAction Input: (.*)` at start
position `p` of `s` (`.` does not match a newline; both groups are greedy:
each extends to the end of its line). -/
def matchActionAt (s : List Char) (p : Nat) : Option (List Char × List Char) :=
  if actionTag.isPrefixOf (s.drop p) then
    if inputTag.isPrefixOf ((s.drop (p + actionTag.length)).dropWhile (fun c => c != '\n')) then
      some ((s.drop (p + actionTag.length)).takeWhile (fun c => c != '\n'),
        (((s.drop (p + actionTag.length)).dropWhile (fun c => c != '\n')).drop
          inputTag.length).takeWhile (fun c => c != '\n'))
    else none
  else none

/-- Embedding of `re.search` for the action regex: leftmost match. -/
def actionSearch (s : List Char) : Option (List Char × List Char) :=
  (List.range (s.length + 1)).findSome? (matchActionAt s)

/-! ## `SafeOutputParser.parse` -/

/-- The tagged outcome produced by the parser: `AgentAction` or `AgentFinish`
(the `log` field keeps the raw text, as in the source). -/
inductive ParsedOutcome where
  | action (tool : List Char) (toolInput : List Char) (log : List Char)
  | finish (output : List Char) (log : List Char)
deriving DecidableEq

/-- Embedding of `SafeOutputParser.parse` (src/agent.py lines 23-44).
Every operation in the `try` block is total, so the `except` fallback of the
source is unreachable and has no counterpart here. -/
def parse (text : List Char) : ParsedOutcome :=
  if pyContains finalMarker text then
    .finish (pyStrip ((pySplit text).getLastD [])) text
  else
    match actionSearch text with
    | some (g1, g2) => .action (pyStrip g1) (pyStrip g2) text
    | none => .finish (pyStrip text) text

/-! ## Characterizing the leftmost and the last marker occurrence -/

theorem find?_append_some {α : Type} {p : α → Bool} {l₁ l₂ : List α} {a : α}
    (h : l₁.find? p = some a) : (l₁ ++ l₂).find? p = some a := by
  induction l₁ with
  | nil => simp [List.find?] at h
  | cons b t ih =>
    rw [List.cons_append]
    by_cases hb : p b = true
    · rw [List.find?_cons_of_pos _ hb] at h ⊢; exact h
    · rw [List.find?_cons_of_neg _ hb] at h ⊢; exact ih h

theorem find?_append_none {α : Type} {p : α → Bool} {l₁ l₂ : List α}
    (h : l₁.find? p = none) : (l₁ ++ l₂).find? p = l₂.find? p := by
  induction l₁ with
  | nil => simp
  | cons b t ih =>
    rw [List.cons_append]
    by_cases hb : p b = true
    · rw [List.find?_cons_of_pos _ hb] at h; simp at h
    · rw [List.find?_cons_of_neg _ hb] at h ⊢; exact ih h

theorem find?_range_min {p : Nat → Bool} :
    ∀ {n i : Nat}, (List.range n).find? p = some i →
      p i = true ∧ ∀ j < i, p j = false := by
  intro n
  induction n with
  | zero => intro i h; simp [List.range_zero, List.find?] at h
  | succ n ih =>
    intro i h
    rw [List.range_succ] at h
    cases hn : (List.range n).find? p with
    | some i' =>
      rw [find?_append_some hn] at h
      cases h; exact ih hn
    | none =>
      rw [find?_append_none hn] at h
      have hall : ∀ j < n, p j = false := by
        intro j hj
        have := List.find?_eq_none.mp hn j (List.mem_range.mpr hj)
        simpa using this
      by_cases hpn : p n = true
      · rw [List.find?_cons_of_pos _ hpn] at h
        cases h
        exact ⟨hpn, hall⟩
      · rw [List.find?_cons_of_neg _ hpn] at h
        simp [List.find?] at h

theorem findSub_some_min {sep s : List Char} {i : Nat}
    (h : findSub sep s = some i) : ∀ j < i, occursAt sep s j = false :=
  (find?_range_min h).2

theorem findSub_none_all {s : List Char} (h : findSub finalMarker s = none) :
    ∀ j, occursAt finalMarker s j = false := by
  intro j
  by_cases hj : j < s.length + 1
  · have := List.find?_eq_none.mp h j (List.mem_range.mpr hj)
    simpa using this
  · by_contra hc
    have hc' : occursAt finalMarker s j = true := by
      cases ho : occursAt finalMarker s j
      · exact absurd ho hc
      · rfl
    have := occursAt_add_le (by decide) hc'
    have : finalMarker.length = 13 := by decide
    omega

theorem pyContains_some {sep s : List Char} (h : pyContains sep s = true) :
    ∃ i, findSub sep s = some i := by
  unfold pyContains at h
  cases hf : findSub sep s with
  | none => rw [hf] at h; simp [Option.isSome] at h
  | some i => exact ⟨i, rfl⟩

theorem prefix_getElem? {α : Type} {l₁ l₂ : List α} (h : l₁ <+: l₂) {m : Nat}
    (hm : m < l₁.length) : l₂[m]? = l₁[m]? := by
  obtain ⟨t, rfl⟩ := h
  exact List.getElem?_append_left hm

/-- The marker `"Final Answer:"` cannot overlap a shifted copy of itself. -/
theorem marker_no_self_overlap :
    ∀ d : Fin 13, 0 < d.val →
      ∃ m : Fin 13, m.val < 13 - d.val ∧
        finalMarker[m.val]? ≠ finalMarker[d.val + m.val]? := by decide

/-- Two distinct occurrences of the final-answer marker are at least a full
marker length apart. -/
theorem occursAt_apart {s : List Char} {i j : Nat}
    (hi : occursAt finalMarker s i = true) (hj : occursAt finalMarker s j = true)
    (hij : i < j) : i + finalMarker.length ≤ j := by
  by_contra hc
  have hml : finalMarker.length = 13 := by decide
  have hd13 : j - i < 13 := by omega
  obtain ⟨m, hm, hne⟩ :=
    marker_no_self_overlap ⟨j - i, hd13⟩ (by simp only [Fin.val_mk]; omega)
  simp only [Fin.val_mk] at hm hne
  apply hne
  have hpi := occursAt_prefix_drop hi
  have hpj := occursAt_prefix_drop hj
  have h1 : finalMarker[m.val]? = (s.drop j)[m.val]? :=
    (prefix_getElem? hpj (by omega)).symm
  have h2 : (s.drop j)[m.val]? = s[j + m.val]? := List.getElem?_drop s j m.val
  have h3 : s[j + m.val]? = (s.drop i)[(j - i) + m.val]? := by
    rw [List.getElem?_drop]
    congr 1
    omega
  have h4 : (s.drop i)[(j - i) + m.val]? = finalMarker[(j - i) + m.val]? :=
    prefix_getElem? hpi (by omega)
  rw [h1, h2, h3, h4]

/-- Index of the last occurrence of the final-answer marker in `s`
(meaningful only when the marker occurs). -/
def lastOccIdx (s : List Char) : Nat :=
  Nat.findGreatest (fun i => occursAt finalMarker s i = true) s.length

/-- The text after the last occurrence of the final-answer marker: the
spec-side description of what `parse` returns in the final-answer case. -/
def afterLastMarker (s : List Char) : List Char :=
  s.drop (lastOccIdx s + finalMarker.length)

theorem lastOccIdx_occurs {s : List Char} {i : Nat}
    (hi : occursAt finalMarker s i = true) :
    occursAt finalMarker s (lastOccIdx s) = true := by
  have hle : i ≤ s.length := by
    have := occursAt_add_le (by decide) hi
    omega
  unfold lastOccIdx
  exact Nat.findGreatest_spec (P := fun i => occursAt finalMarker s i = true) hle hi

theorem le_lastOccIdx {s : List Char} {i : Nat}
    (hi : occursAt finalMarker s i = true) : i ≤ lastOccIdx s := by
  have hle : i ≤ s.length := by
    have := occursAt_add_le (by decide) hi
    omega
  unfold lastOccIdx
  exact Nat.le_findGreatest (P := fun i => occursAt finalMarker s i = true) hle hi

theorem occursAt_shift {sep s : List Char} (d j : Nat) :
    occursAt sep (s.drop d) j = occursAt sep s (d + j) := by
  unfold occursAt
  rw [List.drop_drop]

theorem pySplitAux_ne_nil {fuel : Nat} {s : List Char} :
    pySplitAux fuel s ≠ [] := by
  cases fuel with
  | zero => simp [pySplitAux]
  | succ n =>
    unfold pySplitAux
    cases findSub finalMarker s <;> simp

theorem pySplitAux_of_none {fuel : Nat} {s : List Char}
    (h : findSub finalMarker s = none) : pySplitAux fuel s = [s] := by
  cases fuel with
  | zero => rfl
  | succ n => unfold pySplitAux; rw [h]

theorem getLastD_cons_of_ne {α : Type} {l : List α} (x d : α) (h : l ≠ []) :
    (x :: l).getLastD d = l.getLastD d := by
  cases l with
  | nil => exact absurd rfl h
  | cons b t => simp [List.getLastD_eq_getLast?, List.getLast?_cons_cons]

/-- Key lemma: the last piece of the Python split equals the text after the
last occurrence of the marker. -/
theorem pySplitAux_getLastD :
    ∀ (fuel : Nat) (s : List Char), s.length < fuel →
      pyContains finalMarker s = true →
      (pySplitAux fuel s).getLastD [] = afterLastMarker s := by
  intro fuel
  induction fuel with
  | zero => intro s hs _; omega
  | succ n ih =>
    intro s hs hc
    obtain ⟨i, hi⟩ := pyContains_some hc
    have hocc := findSub_some_occurs hi
    have hml : finalMarker.length = 13 := by decide
    have hlen := occursAt_add_le (by decide) hocc
    have hsucc : pySplitAux (n + 1) s =
        match findSub finalMarker s with
        | none => [s]
        | some i => s.take i :: pySplitAux n (s.drop (i + finalMarker.length)) := rfl
    have hstep : pySplitAux (n + 1) s
        = s.take i :: pySplitAux n (s.drop (i + finalMarker.length)) := by
      rw [hsucc, hi]
    rw [hstep]
    have hrlen : (s.drop (i + finalMarker.length)).length = s.length - (i + 13) := by
      rw [List.length_drop, hml]
    cases hr : findSub finalMarker (s.drop (i + finalMarker.length)) with
    | some i' =>
      have hrc : pyContains finalMarker (s.drop (i + finalMarker.length)) = true := by
        unfold pyContains
        rw [hr]
        rfl
      rw [getLastD_cons_of_ne _ _ pySplitAux_ne_nil,
        ih (s.drop (i + finalMarker.length)) (by omega) hrc]
      -- the last occurrence in `s` sits `i + 13` past the last occurrence in the rest
      have hocc' := findSub_some_occurs hr
      have hj' : occursAt finalMarker (s.drop (i + finalMarker.length))
          (lastOccIdx (s.drop (i + finalMarker.length))) = true := lastOccIdx_occurs hocc'
      have hshift : occursAt finalMarker s
          ((i + finalMarker.length) + lastOccIdx (s.drop (i + finalMarker.length))) = true := by
        rw [← occursAt_shift]
        exact hj'
      have hge : (i + finalMarker.length) + lastOccIdx (s.drop (i + finalMarker.length))
          ≤ lastOccIdx s := le_lastOccIdx hshift
      have hJocc : occursAt finalMarker s (lastOccIdx s) = true := lastOccIdx_occurs hshift
      have hJr : occursAt finalMarker (s.drop (i + finalMarker.length))
          (lastOccIdx s - (i + finalMarker.length)) = true := by
        rw [occursAt_shift]
        have harith : (i + finalMarker.length) + (lastOccIdx s - (i + finalMarker.length))
            = lastOccIdx s := by omega
        rw [harith]
        exact hJocc
      have hle' : lastOccIdx s - (i + finalMarker.length)
          ≤ lastOccIdx (s.drop (i + finalMarker.length)) := le_lastOccIdx hJr
      unfold afterLastMarker
      rw [List.drop_drop]
      congr 1
      omega
    | none =>
      rw [pySplitAux_of_none hr]
      have hlast : (s.take i :: [s.drop (i + finalMarker.length)]).getLastD []
          = s.drop (i + finalMarker.length) := by simp
      rw [hlast]
      -- the leftmost occurrence is also the last one
      have hilast : lastOccIdx s = i := by
        have h1 : i ≤ lastOccIdx s := le_lastOccIdx hocc
        have hJocc : occursAt finalMarker s (lastOccIdx s) = true := lastOccIdx_occurs hocc
        by_contra hne
        have hgt : i < lastOccIdx s := by omega
        have happ := occursAt_apart hocc hJocc hgt
        have hcontra : occursAt finalMarker (s.drop (i + finalMarker.length))
            (lastOccIdx s - (i + finalMarker.length)) = true := by
          rw [occursAt_shift]
          have harith : (i + finalMarker.length) + (lastOccIdx s - (i + finalMarker.length))
              = lastOccIdx s := by omega
          rw [harith]
          exact hJocc
        rw [findSub_none_all hr] at hcontra
        exact Bool.false_ne_true hcontra
      unfold afterLastMarker
      rw [hilast]

theorem pySplit_getLastD {s : List Char} (h : pyContains finalMarker s = true) :
    (pySplit s).getLastD [] = afterLastMarker s :=
  pySplitAux_getLastD (s.length + 1) s (by omega) h

/-- Claim C1: for every input text containing the final-answer marker
`"Final Answer:"`, `parse` returns a `finish` outcome whose output is the
trimmed text after the last occurrence of the marker, even when
action-looking content or earlier marker occurrences precede it. -/
theorem claim_C1 (text : List Char) (h : pyContains finalMarker text = true) :
    parse text = .finish (pyStrip (afterLastMarker text)) text := by
  unfold parse
  rw [if_pos h, pySplit_getLastD h]

/-- Witness for C1 at the spec's Scenario A input `"Final Answer: Hello!"`. -/
theorem claim_C1_witness :
    pyContains finalMarker "Final Answer: Hello!".data = true ∧
    parse "Final Answer: Hello!".data
      = .finish "Hello!".data "Final Answer: Hello!".data := by
  refine ⟨by decide, ?_⟩
  have h := claim_C1 "Final Answer: Hello!".data (by decide)
  rw [h]
  decide

/-- Claim C2: `parse` is total — it returns a `ParsedOutcome` for every
input — and for text with no final-answer marker and no action pattern it
returns `finish` wrapping the original text (trimmed) rather than an error. -/
theorem claim_C2 (text : List Char) :
    (∃ o, parse text = o) ∧
    (pyContains finalMarker text = false → actionSearch text = none →
      parse text = .finish (pyStrip text) text) := by
  refine ⟨⟨parse text, rfl⟩, fun h1 h2 => ?_⟩
  unfold parse
  rw [if_neg (by simp [h1]), h2]

/-- Witness for C2 at the unparseable input `"Hello!"`. -/
theorem claim_C2_witness :
    pyContains finalMarker "Hello!".data = false ∧
    actionSearch "Hello!".data = none ∧
    parse "Hello!".data = .finish (pyStrip "Hello!".data) "Hello!".data :=
  ⟨by decide, by decide, (claim_C2 "Hello!".data).2 (by decide) (by decide)⟩

/-! ## The action-pair pattern (claim C3) -/

theorem dropWhile_head_not {α : Type} (p : α → Bool) (l : List α) :
    l.dropWhile p = [] ∨ ∃ c t, l.dropWhile p = c :: t ∧ p c = false := by
  induction l with
  | nil => left; rfl
  | cons x t ih =>
    by_cases hx : p x = true
    · rw [List.dropWhile_cons_of_pos hx]; exact ih
    · rw [List.dropWhile_cons_of_neg hx]
      right
      exact ⟨x, t, rfl, by simpa using hx⟩

theorem takeWhile_all_append {α : Type} {p : α → Bool} {l₁ : List α} (l₂ : List α)
    (h : ∀ a ∈ l₁, p a = true) :
    (l₁ ++ l₂).takeWhile p = l₁ ++ l₂.takeWhile p :=
  List.takeWhile_append_of_pos h

theorem dropWhile_all_append {α : Type} {p : α → Bool} {l₁ : List α} (l₂ : List α)
    (h : ∀ a ∈ l₁, p a = true) :
    (l₁ ++ l₂).dropWhile p = l₂.dropWhile p :=
  List.dropWhile_append_of_pos h

/-- Decomposition of a successful match of the action regex at position `p`:
the text splits around the two tags, both groups are newline-free, and the
second group extends greedily to the end of its line. -/
theorem matchActionAt_some {s : List Char} {p : Nat} {g1 g2 : List Char}
    (h : matchActionAt s p = some (g1, g2)) :
    ∃ pre post,
      s = pre ++ (actionTag ++ (g1 ++ (inputTag ++ (g2 ++ post)))) ∧
      (∀ c ∈ g1, (c != '\n') = true) ∧ (∀ c ∈ g2, (c != '\n') = true) ∧
      (post = [] ∨ post.head? = some '\n') := by
  unfold matchActionAt at h
  by_cases h1 : actionTag.isPrefixOf (s.drop p) = true
  case neg => rw [if_neg h1] at h; cases h
  rw [if_pos h1] at h
  by_cases h2 : inputTag.isPrefixOf
      ((s.drop (p + actionTag.length)).dropWhile (fun c => c != '\n')) = true
  case neg => rw [if_neg h2] at h; cases h
  rw [if_pos h2, Option.some_inj, Prod.mk.injEq] at h
  obtain ⟨hg1, hg2⟩ := h
  obtain ⟨t1, ht1⟩ := List.isPrefixOf_iff_prefix.mp h1
  obtain ⟨t2, ht2⟩ := List.isPrefixOf_iff_prefix.mp h2
  refine ⟨s.take p, t2.dropWhile (fun c => c != '\n'), ?_, ?_, ?_, ?_⟩
  · -- reassemble the text from the pieces
    have hrest : s.drop (p + actionTag.length) = t1 := by
      rw [← List.drop_drop, ← ht1, List.drop_left]
    have hsplit1 : s.drop (p + actionTag.length)
        = g1 ++ (s.drop (p + actionTag.length)).dropWhile (fun c => c != '\n') := by
      conv_lhs => rw [← List.takeWhile_append_dropWhile (fun c => c != '\n')
        (s.drop (p + actionTag.length))]
      rw [hg1]
    have hdw : ((s.drop (p + actionTag.length)).dropWhile (fun c => c != '\n')).drop
        inputTag.length = t2 := by
      rw [← ht2, List.drop_left]
    have hsplit2 : t2 = g2 ++ t2.dropWhile (fun c => c != '\n') := by
      conv_lhs => rw [← List.takeWhile_append_dropWhile (fun c => c != '\n') t2]
      rw [← hdw, hg2, hdw]
    calc s = s.take p ++ s.drop p := (List.take_append_drop p s).symm
      _ = s.take p ++ (actionTag ++ t1) := by rw [← ht1]
      _ = s.take p ++ (actionTag ++ (g1 ++ ((s.drop (p + actionTag.length)).dropWhile
            (fun c => c != '\n')))) := by rw [← hrest, ← hsplit1]
      _ = s.take p ++ (actionTag ++ (g1 ++ (inputTag ++ t2))) := by rw [← ht2]
      _ = s.take p ++ (actionTag ++ (g1 ++ (inputTag
            ++ (g2 ++ t2.dropWhile (fun c => c != '\n'))))) := by rw [← hsplit2]
  · intro c hc
    rw [← hg1] at hc
    exact List.mem_takeWhile_imp (p := fun c => c != '\n') hc
  · intro c hc
    rw [← hg2] at hc
    exact List.mem_takeWhile_imp (p := fun c => c != '\n') hc
  · rcases dropWhile_head_not (fun c => c != '\n') t2 with hnil | ⟨c, t, hct, hc⟩
    · left; exact hnil
    · right
      rw [hct, List.head?_cons]
      have hceq : c = '\n' := bne_eq_false_iff_eq.mp hc
      rw [hceq]

/-- If the text decomposes as a well-formed action line pair at position
`pre.length`, the regex matches there, capturing the two full line segments. -/
theorem matchActionAt_intro (pre tool inp post : List Char)
    (htool : ∀ c ∈ tool, (c != '\n') = true)
    (hinp : ∀ c ∈ inp, (c != '\n') = true)
    (hpost : post = [] ∨ post.head? = some '\n') :
    matchActionAt (pre ++ (actionTag ++ (tool ++ (inputTag ++ (inp ++ post))))) pre.length
      = some (tool, inp) := by
  have hitag : inputTag = '\n' :: "Action Input: ".data := by decide
  have hdropp : (pre ++ (actionTag ++ (tool ++ (inputTag ++ (inp ++ post))))).drop pre.length
      = actionTag ++ (tool ++ (inputTag ++ (inp ++ post))) := List.drop_left pre _
  have hdrop2 : (pre ++ (actionTag ++ (tool ++ (inputTag ++ (inp ++ post))))).drop
      (pre.length + actionTag.length) = tool ++ (inputTag ++ (inp ++ post)) := by
    rw [← List.drop_drop, hdropp, List.drop_left]
  have htake1 : (tool ++ (inputTag ++ (inp ++ post))).takeWhile (fun c => c != '\n')
      = tool := by
    rw [takeWhile_all_append _ htool, hitag, List.cons_append,
      List.takeWhile_cons_of_neg (by simp), List.append_nil]
  have hdw1 : (tool ++ (inputTag ++ (inp ++ post))).dropWhile (fun c => c != '\n')
      = inputTag ++ (inp ++ post) := by
    rw [dropWhile_all_append _ htool, hitag, List.cons_append,
      List.dropWhile_cons_of_neg (by simp), ← List.cons_append, ← hitag]
  have htake2 : (inp ++ post).takeWhile (fun c => c != '\n') = inp := by
    rw [takeWhile_all_append _ hinp]
    have hpostt : post.takeWhile (fun c => c != '\n') = [] := by
      cases post with
      | nil => rfl
      | cons c t =>
        rcases hpost with hnil | hp
        · cases hnil
        · rw [List.head?_cons] at hp
          have hc : c = '\n' := by injection hp
          rw [List.takeWhile_cons_of_neg (by rw [hc]; simp)]
    rw [hpostt, List.append_nil]
  unfold matchActionAt
  rw [hdropp, hdrop2, hdw1, htake1]
  rw [if_pos (List.isPrefixOf_iff_prefix.mpr (List.prefix_append actionTag _))]
  rw [if_pos (List.isPrefixOf_iff_prefix.mpr (List.prefix_append inputTag _))]
  rw [List.drop_left, htake2]

theorem actionSearch_some_of_match {s : List Char} {p : Nat}
    {v : List Char × List Char} (hp : p < s.length + 1)
    (h : matchActionAt s p = some v) :
    ∃ w, actionSearch s = some w ∧ ∃ q, matchActionAt s q = some w := by
  cases hs : actionSearch s with
  | none =>
    exfalso
    unfold actionSearch at hs
    have hnone := List.findSome?_eq_none_iff.mp hs p (List.mem_range.mpr hp)
    rw [hnone] at h
    cases h
  | some w =>
    unfold actionSearch at hs
    obtain ⟨q, hq, hqv⟩ := List.exists_of_findSome?_eq_some hs
    exact ⟨w, rfl, q, hqv⟩

/-- Claim C3: for every text with no final-answer marker that matches the
action pair pattern — a line `Action: <tool>` immediately followed by a line
`Action Input: <input>` — `parse` returns an `action` outcome whose tool name
and raw input are trimmed of surrounding whitespace, with the input captured
greedily to the end of its line (no quoting required). -/
theorem claim_C3 (pre tool inp post : List Char)
    (hnomark : pyContains finalMarker
      (pre ++ (actionTag ++ (tool ++ (inputTag ++ (inp ++ post))))) = false)
    (htool : ∀ c ∈ tool, (c != '\n') = true)
    (hinp : ∀ c ∈ inp, (c != '\n') = true)
    (hpost : post = [] ∨ post.head? = some '\n')
    (_hpre : pre = [] ∨ pre.getLast? = some '\n') :
    ∃ g1 g2 pre' post',
      pre ++ (actionTag ++ (tool ++ (inputTag ++ (inp ++ post))))
        = pre' ++ (actionTag ++ (g1 ++ (inputTag ++ (g2 ++ post')))) ∧
      (∀ c ∈ g1, (c != '\n') = true) ∧ (∀ c ∈ g2, (c != '\n') = true) ∧
      (post' = [] ∨ post'.head? = some '\n') ∧
      parse (pre ++ (actionTag ++ (tool ++ (inputTag ++ (inp ++ post)))))
        = .action (pyStrip g1) (pyStrip g2)
            (pre ++ (actionTag ++ (tool ++ (inputTag ++ (inp ++ post))))) := by
  have hm := matchActionAt_intro pre tool inp post htool hinp hpost
  have hplen : pre.length
      < (pre ++ (actionTag ++ (tool ++ (inputTag ++ (inp ++ post))))).length + 1 := by
    rw [List.length_append]
    omega
  obtain ⟨⟨g1, g2⟩, hsearch, q, hq⟩ := actionSearch_some_of_match hplen hm
  obtain ⟨pre', post', heq, hg1, hg2, hpost'⟩ := matchActionAt_some hq
  refine ⟨g1, g2, pre', post', heq, hg1, hg2, hpost', ?_⟩
  unfold parse
  rw [if_neg (by simp [hnomark]), hsearch]

/-- Witness for C3 at the spec's Scenario B input
`"Action: order_status\nAction Input: ORD001"`: the hypotheses of C3 are
discharged at this concrete decomposition, and the parsed outcome is the
trimmed action pair. -/
theorem claim_C3_witness :
    parse "Action: order_status\nAction Input: ORD001".data
      = .action "order_status".data "ORD001".data
          "Action: order_status\nAction Input: ORD001".data := by
  obtain ⟨g1, g2, pre', post', heq, hg1, hg2, hpost', hparse⟩ :=
    claim_C3 [] "order_status".data "ORD001".data []
      (by decide) (by decide) (by decide) (Or.inl rfl) (Or.inl rfl)
  decide

/-! ## Conversation memory (claims C4, C5) -/

/-- The role of one stored conversation turn. -/
inductive Role where
  | user
  | assistant
deriving DecidableEq

/-- One entry of the conversation memory. -/
structure Turn where
  role : Role
  content : List Char
deriving DecidableEq

/-- Modelled from the spec: `ConversationBufferWindowMemory.save_context` is
langchain library code, not part of the repository.  Spec §3: the memory is
"capacity-bounded to the most recent k exchanges (an exchange = one user turn
+ one assistant turn).  Invariant: length never exceeds 2·k entries; oldest
entries are evicted first (FIFO) when a new exchange is appended."
`saveContext` appends the user and assistant turns of one exchange and then
drops the oldest entries beyond `2·k`. -/
def saveContext (k : Nat) (mem : List Turn) (userInput output : List Char) : List Turn :=
  (mem ++ [Turn.mk .user userInput, Turn.mk .assistant output]).drop
    ((mem ++ [Turn.mk .user userInput, Turn.mk .assistant output]).length - 2 * k)

/-- The window size configured in `EcommerceAgent.__init__`
(`ConversationBufferWindowMemory(..., k=10)`, src/agent.py line 73). -/
def memoryWindowK : Nat := 10

/-- Flatten a sequence of exchanges (user input, assistant output) into the
alternating oldest-first turn list the memory stores. -/
def toTurns : List (List Char × List Char) → List Turn
  | [] => []
  | e :: rest => ⟨.user, e.1⟩ :: ⟨.assistant, e.2⟩ :: toTurns rest

theorem toTurns_length : ∀ exs, (toTurns exs).length = 2 * exs.length := by
  intro exs
  induction exs with
  | nil => rfl
  | cons e rest ih =>
    show (toTurns rest).length + 1 + 1 = 2 * (rest.length + 1)
    omega

theorem toTurns_append : ∀ a b, toTurns (a ++ b) = toTurns a ++ toTurns b := by
  intro a b
  induction a with
  | nil => rfl
  | cons e rest ih =>
    show (⟨.user, e.1⟩ : Turn) :: ⟨.assistant, e.2⟩ :: toTurns (rest ++ b)
      = ⟨.user, e.1⟩ :: ⟨.assistant, e.2⟩ :: (toTurns rest ++ toTurns b)
    rw [ih]

theorem toTurns_drop : ∀ (m : Nat) (l : List (List Char × List Char)),
    (toTurns l).drop (2 * m) = toTurns (l.drop m) := by
  intro m
  induction m with
  | zero => intro l; simp
  | succ m ih =>
    intro l
    cases l with
    | nil => simp [toTurns]
    | cons e rest =>
      show ((⟨.user, e.1⟩ : Turn) :: ⟨.assistant, e.2⟩ :: toTurns rest).drop (2 * (m + 1))
        = toTurns (rest.drop m)
      rw [show 2 * (m + 1) = (2 * m + 1) + 1 from by omega, List.drop_succ_cons,
        List.drop_succ_cons]
      exact ih rest

/-- Completed turns played into an initially empty memory: each turn appends
its exchange through `saveContext`. -/
def runTurns (k : Nat) (exs : List (List Char × List Char)) : List Turn :=
  exs.foldl (fun mem e => saveContext k mem e.1 e.2) []

theorem saveContext_drop (k : Nat) (l : List (List Char × List Char)) (u o : List Char) :
    saveContext k (toTurns (l.drop (l.length - k))) u o
      = toTurns ((l ++ [(u, o)]).drop ((l ++ [(u, o)]).length - k)) := by
  unfold saveContext
  have h1 : toTurns (l.drop (l.length - k)) ++ [⟨.user, u⟩, ⟨.assistant, o⟩]
      = toTurns (l.drop (l.length - k) ++ [(u, o)]) := by
    rw [toTurns_append]
    rfl
  rw [h1]
  have hlen : (toTurns (l.drop (l.length - k) ++ [(u, o)])).length
      = 2 * ((l.length - (l.length - k)) + 1) := by
    rw [toTurns_length, List.length_append, List.length_drop]
    rfl
  rw [hlen]
  rw [show 2 * ((l.length - (l.length - k)) + 1) - 2 * k
    = 2 * (((l.length - (l.length - k)) + 1) - k) from by omega]
  rw [toTurns_drop]
  congr 1
  have hLe : (l ++ [(u, o)]).drop (l.length - k) = l.drop (l.length - k) ++ [(u, o)] := by
    rw [List.drop_append_eq_append_drop,
      show l.length - k - l.length = 0 from by omega, List.drop_zero]
  rw [← hLe, List.drop_drop, List.length_append]
  congr 1
  simp only [List.length_cons, List.length_nil]
  omega

theorem runTurns_window (k : Nat) :
    ∀ exs : List (List Char × List Char),
      runTurns k exs = toTurns (exs.drop (exs.length - k)) := by
  intro exs
  induction exs using List.reverseRecOn with
  | nil => simp [runTurns, List.drop_nil, toTurns]
  | append_singleton l e ih =>
    have hfold : runTurns k (l ++ [e]) = saveContext k (runTurns k l) e.1 e.2 := by
      unfold runTurns
      rw [List.foldl_append, List.foldl_cons, List.foldl_nil]
    rw [hfold, ih]
    exact saveContext_drop k l e.1 e.2

/-- Claim C4: after any sequence of `n` completed turns with window size `k`,
the conversation memory holds exactly the `min n k` most recent exchanges in
oldest-first order; its length `2 * min n k` never exceeds `2·k`, and at
capacity the oldest exchange is evicted first (the kept suffix drops the
front of the exchange sequence). -/
theorem claim_C4 (k : Nat) (exs : List (List Char × List Char)) :
    runTurns k exs = toTurns (exs.drop (exs.length - k)) ∧
    (exs.drop (exs.length - k)).length = min exs.length k ∧
    (runTurns k exs).length = 2 * min exs.length k ∧
    (runTurns k exs).length ≤ 2 * k := by
  have h := runTurns_window k exs
  have hdl : (exs.drop (exs.length - k)).length = min exs.length k := by
    rw [List.length_drop]
    omega
  refine ⟨h, hdl, ?_, ?_⟩
  · rw [h, toTurns_length, hdl]
  · rw [h, toTurns_length, hdl]
    omega

/-- The inline annotation `f"\nCustomer Context: {customer_context}"`
prepended to the executor input (src/agent.py line 239). -/
def contextTag : List Char := "\nCustomer Context: ".data

/-- The message actually handed to the executor: the user text plus the
session-context annotation when a context is attached (src/agent.py
lines 237-240). -/
def enhancedMessage (message : List Char) (context : Option (List Char)) : List Char :=
  match context with
  | none => message
  | some ctx => message ++ contextTag ++ ctx

/-- Embedding of the success path of `EcommerceAgent.process_message`
(src/agent.py lines 233-259).  The `AgentExecutor` invocation is langchain
library code, not part of the repository; modelled from the spec (§4.3): it
returns the turn's final output and does not touch the conversation memory
(the scratchpad is turn-scoped and discarded), so it enters the model as an
opaque function of the enhanced input.  After the executor returns,
`process_message` performs the single `save_context` call, with the verbatim
`message`, not the enhanced one. -/
def processMessage (k : Nat) (executor : List Char → List Char)
    (mem : List Turn) (message : List Char) (context : Option (List Char)) :
    List Char × List Turn :=
  (executor (enhancedMessage message context),
   saveContext k mem message (executor (enhancedMessage message context)))

/-- Claim C5: each processed turn mutates the conversation memory exactly
once, after the turn terminates, appending exactly one exchange whose user
content is the verbatim message — without the session-context annotation —
and whose assistant content is the verbatim final output; no scratchpad step
enters the memory.  (Stated below capacity, where the window drops nothing.) -/
theorem claim_C5 (k : Nat) (executor : List Char → List Char) (mem : List Turn)
    (message : List Char) (context : Option (List Char))
    (hroom : mem.length + 2 ≤ 2 * k) :
    processMessage k executor mem message context
      = (executor (enhancedMessage message context),
         mem ++ [⟨.user, message⟩,
           ⟨.assistant, executor (enhancedMessage message context)⟩]) := by
  unfold processMessage saveContext
  have hz : (mem ++ [(⟨.user, message⟩ : Turn),
      ⟨.assistant, executor (enhancedMessage message context)⟩]).length - 2 * k = 0 := by
    rw [List.length_append]
    simp only [List.length_cons, List.length_nil]
    omega
  rw [hz, List.drop_zero]

/-- Witness for C5: a turn with an attached customer context appends the raw
message, not the annotated executor input. -/
theorem claim_C5_witness :
    processMessage 10 (fun _ => "Sure!".data) [] "Hi".data
        (some "customer_id=CUST001".data)
      = ("Sure!".data, [⟨.user, "Hi".data⟩, ⟨.assistant, "Sure!".data⟩]) := by
  have h := claim_C5 10 (fun _ => "Sure!".data) [] "Hi".data
    (some "customer_id=CUST001".data) (by decide)
  rw [h]
  rfl

/-! ## The executor iteration ceiling (claim C6) and model switching (claim C9) -/

/-- One backend turn as seen by the loop after parsing: an action request or
a final answer. -/
inductive StepOutcome where
  | act (tool : List Char) (toolInput : List Char)
  | fin (output : List Char)

/-- The forced-termination message.  Modelled from the spec (§4.3): on
reaching the ceiling the loop synthesizes a `Finish` "whose output instructs
the user that the assistant could not resolve the request in the allotted
steps" (langchain's stock early-stopping text). -/
def ceilingMessage : List Char :=
  "Agent stopped due to iteration limit or time limit.".data

/-- Modelled from the spec (§4.3): the ReAct loop of `AgentExecutor` is
langchain library code, not part of the repository.  `runLoopFrom backend
fuel i` runs up to `fuel` further iterations with `i` action iterations
already executed: a finish outcome terminates with its output, an action
outcome consumes one iteration, and an exhausted ceiling force-terminates
with the ceiling message.  Returns the final output and the number of action
iterations executed. -/
def runLoopFrom (backend : Nat → StepOutcome) : Nat → Nat → List Char × Nat
  | 0, i => (ceilingMessage, i)
  | fuel + 1, i =>
    match backend i with
    | .fin output => (output, i)
    | .act _ _ => runLoopFrom backend fuel (i + 1)

/-- One turn of the loop under iteration ceiling `maxIterations`. -/
def runLoop (maxIterations : Nat) (backend : Nat → StepOutcome) : List Char × Nat :=
  runLoopFrom backend maxIterations 0

/-- `max_iterations=5` passed to `AgentExecutor` in `EcommerceAgent.__init__`
(src/agent.py line 93). -/
def initMaxIterations : Nat := 5

/-- `max_iterations=10` passed to the replacement `AgentExecutor` built by
`EcommerceAgent.switch_model` (src/agent.py line 333). -/
def switchMaxIterations : Nat := 10

/-- The backend-facing state of an `EcommerceAgent`: the active model and
the iteration ceiling of the currently installed executor. -/
structure AgentState where
  llmModel : String
  maxIterations : Nat
deriving DecidableEq

/-- The state built by `EcommerceAgent.__init__`: primary model
`llama3-70b-8192`, executor ceiling 5. -/
def initAgentState : AgentState :=
  { llmModel := "llama3-70b-8192", maxIterations := initMaxIterations }

/-- Embedding of `EcommerceAgent.switch_model` (src/agent.py lines 301-342):
construct the requested backend and probe it with the trivial call
`new_llm.invoke("Hello")` — `probe` abstracts the combined outcome of
construction and probe.  On success, install the new model together with a
fresh executor (which the source builds with `max_iterations=10`) and return
`True`; on any failure the `except` branch leaves every field untouched and
returns `False`. -/
def switch_model (probe : String → Bool) (st : AgentState) (modelName : String) :
    AgentState × Bool :=
  if probe modelName then
    ({ llmModel := modelName, maxIterations := switchMaxIterations }, true)
  else (st, false)

/-- Counterexample to C6 as stated: the cap is renegotiated.  After a
successful `switch_model` the installed executor's ceiling is 10, and a turn
whose backend only emits actions runs 10 iterations before the ceiling
message — not the claimed fixed 5. -/
theorem claim_C6_counterexample :
    (switch_model (fun _ => true) initAgentState "llama3-8b-8192").1.maxIterations = 10 ∧
    runLoop (switch_model (fun _ => true) initAgentState "llama3-8b-8192").1.maxIterations
        (fun _ => StepOutcome.act "ask_query".data []) = (ceilingMessage, 10) ∧
    ((switch_model (fun _ => true) initAgentState "llama3-8b-8192").1.maxIterations == 5)
      = false :=
  ⟨rfl, rfl, rfl⟩

/-- Claim C6 (amended): a backend that only emits action outcomes makes the
loop terminate — never looping indefinitely — with the ceiling-specific
message after exactly the configured ceiling; that ceiling is 5 for the
executor built at initialization, but a successful `switch_model` installs a
fresh executor with ceiling 10, so the cap is per-executor configuration,
not an unrenegotiable 5. -/
theorem claim_C6 (m : Nat) (backend : Nat → StepOutcome)
    (halways : ∀ n, ∃ t inp, backend n = .act t inp) :
    runLoop m backend = (ceilingMessage, m) ∧
    initAgentState.maxIterations = 5 ∧
    (∀ probe st name, probe name = true →
      (switch_model probe st name).1.maxIterations = 10) := by
  refine ⟨?_, rfl, fun probe st name hp => by unfold switch_model; rw [if_pos hp]; rfl⟩
  have key : ∀ fuel i, runLoopFrom backend fuel i = (ceilingMessage, i + fuel) := by
    intro fuel
    induction fuel with
    | zero =>
      intro i
      show (ceilingMessage, i) = (ceilingMessage, i + 0)
      rw [Nat.add_zero]
    | succ f ih =>
      intro i
      obtain ⟨t, inp, hb⟩ := halways i
      show (match backend i with
        | .fin output => (output, i)
        | .act _ _ => runLoopFrom backend f (i + 1)) = (ceilingMessage, i + (f + 1))
      rw [hb, ih (i + 1), show i + 1 + f = i + (f + 1) from by omega]
  unfold runLoop
  rw [key m 0, Nat.zero_add]

/-- Witness for C6: the always-action backend under the initial ceiling 5
stops after exactly 5 iterations with the ceiling message, and a successful
switch installs ceiling 10. -/
theorem claim_C6_witness :
    runLoop 5 (fun _ => StepOutcome.act "ask_query".data []) = (ceilingMessage, 5) ∧
    initAgentState.maxIterations = 5 ∧
    (switch_model (fun _ => true) initAgentState "llama3-70b-8192").1.maxIterations = 10 := by
  have h := claim_C6 5 (fun _ => StepOutcome.act "ask_query".data [])
    (fun _ => ⟨"ask_query".data, [], rfl⟩)
  exact ⟨h.1, h.2.1, h.2.2 (fun _ => true) initAgentState "llama3-70b-8192" rfl⟩

/-- Claim C9: `switch_model` probes the requested backend before committing
the swap: the reported result equals the probe outcome; on probe failure the
previous state — in particular the previously active backend — stays in
place; on probe success the new backend is installed in a single state
update, so an installed backend remains active either way. -/
theorem claim_C9 (probe : String → Bool) (st : AgentState) (modelName : String) :
    ((switch_model probe st modelName).2 = probe modelName) ∧
    (probe modelName = false → (switch_model probe st modelName).1 = st) ∧
    (probe modelName = true →
      (switch_model probe st modelName).1
        = { llmModel := modelName, maxIterations := switchMaxIterations }) := by
  unfold switch_model
  by_cases hp : probe modelName = true
  · rw [if_pos hp]
    refine ⟨hp.symm, fun hf => ?_, fun _ => rfl⟩
    rw [hp] at hf
    cases hf
  · have hf : probe modelName = false := by
      cases hpp : probe modelName
      · rfl
      · exact absurd hpp hp
    rw [if_neg hp]
    exact ⟨by rw [hf], fun _ => rfl, fun ht => absurd ht hp⟩

/-- Witness for C9: a probe accepting exactly `llama3-8b-8192` commits the
swap for that model and leaves the initial state untouched for another. -/
theorem claim_C9_witness :
    ((switch_model (fun m => m == "llama3-8b-8192") initAgentState "llama3-8b-8192").1
      = { llmModel := "llama3-8b-8192", maxIterations := switchMaxIterations }) ∧
    ((switch_model (fun m => m == "llama3-8b-8192") initAgentState "gemma2-9b-it").2
      = false) ∧
    ((switch_model (fun m => m == "llama3-8b-8192") initAgentState "gemma2-9b-it").1
      = initAgentState) := by
  have h1 := claim_C9 (fun m => m == "llama3-8b-8192") initAgentState "llama3-8b-8192"
  have h2 := claim_C9 (fun m => m == "llama3-8b-8192") initAgentState "gemma2-9b-it"
  refine ⟨h1.2.2 (by decide), ?_, h2.2.1 (by decide)⟩
  rw [h2.1]
  decide

/-! ## The error classifier (claim C8) -/

/-- Python `str.lower()` (ASCII behaviour, which covers every checked
substring). -/
def pyLower (s : List Char) : List Char := s.map Char.toLower

/-- The generic apology built first in the `except` branch of
`process_message` (src/agent.py line 262): it embeds `str(e)` — the error
text, not a stack trace. -/
def genericErrorMsg (e : List Char) : List Char :=
  "I apologize, but I encountered an error while processing your request: ".data ++ e

/-- src/agent.py line 267. -/
def rateLimitMsg : List Char :=
  "I'm currently experiencing high demand. Please wait a moment and try again.".data

/-- src/agent.py line 269. -/
def authErrorMsg : List Char :=
  "There seems to be an issue with the API authentication. Please contact support.".data

/-- src/agent.py line 271. -/
def timeoutMsg : List Char :=
  "The request timed out. Please try again with a shorter message.".data

/-- Embedding of the classification in the `except` branch of
`EcommerceAgent.process_message` (src/agent.py lines 261-271): the generic
apology assigned first is overridden by the first matching `if`/`elif`
substring test on the lowercased error text. -/
def classifyError (e : List Char) : List Char :=
  if pyContains "rate limit".data (pyLower e) then rateLimitMsg
  else if pyContains "authentication".data (pyLower e)
      || pyContains "api key".data (pyLower e) then authErrorMsg
  else if pyContains "timeout".data (pyLower e) then timeoutMsg
  else genericErrorMsg e

/-- Embedding of the tail of the `except` branch (src/agent.py lines
273-277): the classified message — never the raw error — is saved to memory
as the turn's output and returned to the caller. -/
def processMessageError (k : Nat) (mem : List Turn) (message e : List Char) :
    List Char × List Turn :=
  (classifyError e, saveContext k mem message (classifyError e))

/-- Counterexample to C8 as stated: an error that mentions "quota" does not
get the high-demand message — the code matches only the exact substring
"rate limit" — so `"Daily quota exceeded"` is classified as the generic
apology. -/
theorem claim_C8_counterexample :
    classifyError "Daily quota exceeded".data
      = genericErrorMsg "Daily quota exceeded".data ∧
    (classifyError "Daily quota exceeded".data == rateLimitMsg) = false :=
  ⟨by decide, by decide⟩

/-- Claim C8 (amended): classification is first-match-wins on the lowercased
error text with the substring triggers the code actually checks — "rate
limit" (not any mention of rate/quota); "authentication" or "api key" (not
"credential"); "timeout" — otherwise the generic apology carrying the error
text (not a stack trace); the classified message, not the raw error, is both
appended to memory and returned.  An error containing "rate limit" yields
the quota-specific message verbatim. -/
theorem claim_C8 (k : Nat) (mem : List Turn) (message e : List Char) :
    (pyContains "rate limit".data (pyLower e) = true →
      classifyError e = rateLimitMsg) ∧
    (pyContains "rate limit".data (pyLower e) = false →
      (pyContains "authentication".data (pyLower e) = true ∨
        pyContains "api key".data (pyLower e) = true) →
      classifyError e = authErrorMsg) ∧
    (pyContains "rate limit".data (pyLower e) = false →
      pyContains "authentication".data (pyLower e) = false →
      pyContains "api key".data (pyLower e) = false →
      pyContains "timeout".data (pyLower e) = true →
      classifyError e = timeoutMsg) ∧
    (pyContains "rate limit".data (pyLower e) = false →
      pyContains "authentication".data (pyLower e) = false →
      pyContains "api key".data (pyLower e) = false →
      pyContains "timeout".data (pyLower e) = false →
      classifyError e = genericErrorMsg e) ∧
    processMessageError k mem message e
      = (classifyError e, saveContext k mem message (classifyError e)) := by
  refine ⟨fun h1 => ?_, fun h1 h2 => ?_, fun h1 h2 h3 h4 => ?_, fun h1 h2 h3 h4 => ?_, rfl⟩
  · unfold classifyError
    rw [if_pos h1]
  · unfold classifyError
    rw [if_neg (by simp [h1]), if_pos (by rcases h2 with h | h <;> simp [h])]
  · unfold classifyError
    rw [if_neg (by simp [h1]), if_neg (by simp [h2, h3]), if_pos h4]
  · unfold classifyError
    rw [if_neg (by simp [h1]), if_neg (by simp [h2, h3]), if_neg (by simp [h4])]

/-- Witness for C8 at the spec's Scenario E: an error containing
"rate limit" returns the quota-specific message verbatim. -/
theorem claim_C8_witness :
    pyContains "rate limit".data (pyLower "Rate limit reached for requests".data) = true ∧
    classifyError "Rate limit reached for requests".data = rateLimitMsg :=
  ⟨by decide,
    (claim_C8 memoryWindowK [] [] "Rate limit reached for requests".data).1 (by decide)⟩

/-! ## The tool boundary (claim C7) -/

/-- Result of a Python call: a returned value or a raised exception. -/
inductive PyResult (α : Type) where
  | ok (val : α)
  | raised (exc : String)
deriving DecidableEq

/-- The tool names registered by `get_tools` (src/tools.py lines 309-323). -/
def registeredToolNames : List String :=
  ["order_status", "cancel_order", "process_return", "search_products",
   "product_details", "customer_info", "get_customer_orders",
   "search_orders_by_email", "update_preferences", "get_weather",
   "product_recommendations", "ask_query"]

/-- The methods `MockCustomerDatabase` actually defines
(src/mock_databases.py lines 289-381): only the two lookups — there is no
`update_preferences` method. -/
def mockCustomerDatabaseMethods : List String :=
  ["get_customer_info", "get_customer_by_email"]

/-- Embedding of `UpdatePreferencesTool._run` (src/tools.py lines 247-249):
it evaluates `customer_db.update_preferences(customer_id, preferences)`.
Python resolves the attribute dynamically: were the method defined the call
would return its string, but `MockCustomerDatabase` does not define it, so
the call raises `AttributeError` (the success branch is dead code with no
method body to translate). -/
def updatePreferencesRun (customer_id : String) : PyResult String :=
  if "update_preferences" ∈ mockCustomerDatabaseMethods then
    .ok ("RESULT: preferences updated for " ++ customer_id)
  else
    .raised "AttributeError: MockCustomerDatabase object has no attribute update_preferences"

/-- Claim C7 (code bug): the spec demands that tool invocations never raise
across the boundary, but the registered tool `update_preferences` calls a
nonexistent `MockCustomerDatabase` method, so invoking it raises
`AttributeError` instead of returning an observation string — evaluated here
at the concrete input `customer_id="CUST001"`. -/
theorem claim_C7 :
    "update_preferences" ∈ registeredToolNames ∧
    updatePreferencesRun "CUST001"
      = .raised
          "AttributeError: MockCustomerDatabase object has no attribute update_preferences" :=
  ⟨by decide, by decide⟩

/-! ## The mock order store (claim C10) -/

/-- One line item of an order (src/mock_databases.py); monetary amounts are
represented in cents (`99.99` → `9999`). -/
structure OrderItem where
  product_id : String
  name : String
  quantity : Nat
  priceCents : Nat
deriving DecidableEq

/-- One order record of `MockOrderDatabase` (src/mock_databases.py
lines 11-92), with amounts in cents. -/
structure Order where
  order_id : String
  customer_id : String
  status : String
  items : List OrderItem
  totalCents : Nat
  order_date : String
  shipping_address : String
  tracking_number : Option String
  can_cancel : Bool
deriving DecidableEq

def ord001 : Order :=
  { order_id := "ORD001", customer_id := "CUST001", status := "shipped",
    items := [⟨"PROD001", "Wireless Headphones", 1, 9999⟩],
    totalCents := 9999, order_date := "2024-01-15",
    shipping_address := "123 Main St, New York, NY",
    tracking_number := some "TRK123456789", can_cancel := false }

def ord002 : Order :=
  { order_id := "ORD002", customer_id := "CUST001", status := "processing",
    items := [⟨"PROD002", "Smart Watch", 1, 24999⟩, ⟨"PROD003", "Phone Case", 2, 1999⟩],
    totalCents := 28997, order_date := "2024-01-20",
    shipping_address := "123 Main St, New York, NY",
    tracking_number := none, can_cancel := true }

def ord003 : Order :=
  { order_id := "ORD003", customer_id := "CUST002", status := "delivered",
    items := [⟨"PROD004", "Laptop Stand", 1, 4599⟩],
    totalCents := 4599, order_date := "2024-01-10",
    shipping_address := "456 Oak Ave, Los Angeles, CA",
    tracking_number := some "TRK987654321", can_cancel := false }

def ord004 : Order :=
  { order_id := "ORD004", customer_id := "CUST003", status := "processing",
    items := [⟨"PROD005", "Winter Jacket", 1, 8999⟩],
    totalCents := 8999, order_date := "2024-01-22",
    shipping_address := "789 Pine Rd, Chicago, IL",
    tracking_number := none, can_cancel := true }

def ord005 : Order :=
  { order_id := "ORD005", customer_id := "CUST004", status := "delivered",
    items := [⟨"PROD006", "Gaming Mouse", 1, 5999⟩],
    totalCents := 5999, order_date := "2024-01-18",
    shipping_address := "321 Elm St, Houston, TX",
    tracking_number := some "TRK2468101214", can_cancel := false }

def ord006 : Order :=
  { order_id := "ORD006", customer_id := "CUST005", status := "processing",
    items := [⟨"PROD007", "Bluetooth Speaker", 2, 3499⟩],
    totalCents := 6998, order_date := "2024-01-21",
    shipping_address := "654 Maple Ln, Miami, Florida",
    tracking_number := none, can_cancel := true }

/-- The order dictionary built by `MockOrderDatabase.__init__`, as an
association list keyed by order id. -/
def initialOrders : List (String × Order) :=
  [("ORD001", ord001), ("ORD002", ord002), ("ORD003", ord003),
   ("ORD004", ord004), ("ORD005", ord005), ("ORD006", ord006)]

/-- Embedding of `MockOrderDatabase.cancel_order` (src/mock_databases.py
lines 98-109): unknown id → failure, untouched store; `can_cancel` false →
failure, untouched store; otherwise the order's status becomes "cancelled",
its flag becomes false — an in-place dict mutation, modelled as a keyed
update — and the call reports success.  Returns (store, success, message). -/
def cancel_order (orders : List (String × Order)) (order_id : String) :
    List (String × Order) × Bool × String :=
  match orders.lookup order_id with
  | none => (orders, false, "Order not found")
  | some o =>
    if !o.can_cancel then
      (orders, false, "Order cannot be cancelled (already shipped/delivered)")
    else
      (orders.map (fun p => if p.1 = order_id then
          (p.1, { o with status := "cancelled", can_cancel := false }) else p),
        true, "Order cancelled successfully")

theorem lookup_update_self {β : Type} (l : List (String × β)) (key : String) (v : β)
    (h : (l.lookup key).isSome = true) :
    (l.map (fun p => if p.1 = key then (p.1, v) else p)).lookup key = some v := by
  induction l with
  | nil => simp [List.lookup] at h
  | cons hd t ih =>
    by_cases hk : hd.1 = key
    · rw [List.map_cons, if_pos hk]
      show List.lookup key ((hd.1, v) :: _) = some v
      rw [List.lookup_cons]
      rw [show (key == hd.1) = true from by simp [hk]]
    · rw [List.map_cons, if_neg hk]
      have hkey : (key == hd.1) = false := by
        simp
        exact fun he => hk he.symm
      rw [List.lookup_cons] at h ⊢
      rw [hkey] at h ⊢
      exact ih h

theorem lookup_update_other {β : Type} (l : List (String × β)) (key other : String)
    (v : β) (hne : other ≠ key) :
    (l.map (fun p => if p.1 = key then (p.1, v) else p)).lookup other = l.lookup other := by
  induction l with
  | nil => rfl
  | cons hd t ih =>
    by_cases hk : hd.1 = key
    · rw [List.map_cons, if_pos hk]
      have ho : (other == hd.1) = false := by
        simp
        rw [hk]
        exact hne
      show List.lookup other ((hd.1, v) :: _) = _
      rw [List.lookup_cons, List.lookup_cons, ho]
      exact ih
    · rw [List.map_cons, if_neg hk]
      rw [List.lookup_cons, List.lookup_cons]
      cases ho : (other == hd.1)
      · exact ih
      · rfl

theorem cancel_order_none {orders : List (String × Order)} {oid : String}
    (h : orders.lookup oid = none) :
    cancel_order orders oid = (orders, false, "Order not found") := by
  unfold cancel_order
  rw [h]

theorem cancel_order_some {orders : List (String × Order)} {oid : String} {o : Order}
    (h : orders.lookup oid = some o) :
    cancel_order orders oid
      = if (!o.can_cancel) = true then
          (orders, false, "Order cannot be cancelled (already shipped/delivered)")
        else
          (orders.map (fun p => if p.1 = oid then
              (p.1, { o with status := "cancelled", can_cancel := false }) else p),
            true, "Order cancelled successfully") := by
  unfold cancel_order
  rw [h]

/-- Claim C10: `cancel_order` is atomic and one-shot.  An unknown id or a
non-cancellable order yields a failure result and leaves the order store
completely unchanged; a cancellable order yields success, sets exactly that
order's status to "cancelled" and its `can_cancel` flag to false while every
other order is untouched, and a second `cancel_order` on the same id
necessarily fails. -/
theorem claim_C10 (orders : List (String × Order)) (oid : String) :
    (orders.lookup oid = none →
      cancel_order orders oid = (orders, false, "Order not found")) ∧
    (∀ o, orders.lookup oid = some o → o.can_cancel = false →
      cancel_order orders oid
        = (orders, false, "Order cannot be cancelled (already shipped/delivered)")) ∧
    (∀ o, orders.lookup oid = some o → o.can_cancel = true →
      (cancel_order orders oid).2.1 = true ∧
      (cancel_order orders oid).1.lookup oid
        = some { o with status := "cancelled", can_cancel := false } ∧
      (∀ other, other ≠ oid →
        (cancel_order orders oid).1.lookup other = orders.lookup other) ∧
      (cancel_order (cancel_order orders oid).1 oid).2.1 = false) := by
  refine ⟨fun hnone => cancel_order_none hnone, fun o hsome hcc => ?_,
    fun o hsome hcc => ?_⟩
  · rw [cancel_order_some hsome, if_pos (by rw [hcc]; rfl)]
  · have hmain : cancel_order orders oid
        = (orders.map (fun p => if p.1 = oid then
            (p.1, { o with status := "cancelled", can_cancel := false }) else p),
          true, "Order cancelled successfully") := by
      rw [cancel_order_some hsome, if_neg (by rw [hcc]; simp)]
    have hlook : (cancel_order orders oid).1.lookup oid
        = some { o with status := "cancelled", can_cancel := false } := by
      rw [hmain]
      exact lookup_update_self orders oid _ (by rw [hsome]; rfl)
    refine ⟨by rw [hmain], hlook, fun other hne => ?_, ?_⟩
    · rw [hmain]
      exact lookup_update_other orders oid other _ hne
    · rw [cancel_order_some hlook]
      simp

/-- Witness for C10 on the real order table: an unknown id and the shipped
`ORD001` fail leaving the store unchanged, while the processing `ORD002`
cancels once and only once. -/
theorem claim_C10_witness :
    (cancel_order initialOrders "ORD999"
      = (initialOrders, false, "Order not found")) ∧
    (cancel_order initialOrders "ORD001"
      = (initialOrders, false, "Order cannot be cancelled (already shipped/delivered)")) ∧
    ((cancel_order initialOrders "ORD002").2.1 = true) ∧
    ((cancel_order (cancel_order initialOrders "ORD002").1 "ORD002").2.1 = false) := by
  have h999 := (claim_C10 initialOrders "ORD999").1 (by decide)
  have h001 := (claim_C10 initialOrders "ORD001").2.1 ord001 (by decide) (by decide)
  have h002 := (claim_C10 initialOrders "ORD002").2.2 ord002 (by decide) (by decide)
  exact ⟨h999, h001, h002.1, h002.2.2.2⟩

end GroqAgent
